import Mathlib

/-!
# Verification of the cleaning-robots simulation (`robot.py`)

Shallow embedding of the Mesa-based cleaning-robots model in `src/robot.py`.
Pure data is embedded directly; the two sources of randomness (the scheduler's
per-tick permutation and each robot's neighbour choice) are passed in as
explicit nondeterministic parameters, so theorems quantify over them.
Python exceptions are modelled with an error component; a `step` that raises
returns the partially mutated state together with the error, matching Python's
in-place mutation semantics.

The grid and scheduler come from the third-party Mesa framework (not part of
this repository's sources); those operations are modelled from the spec, as
marked on each definition.  Python `float` arithmetic in
`get_clean_percentage` is modelled with exact rationals.
-/

namespace CleaningSim

/-- Python exceptions that the simulation code can raise:
`IndexError` from `random.choice` on an empty sequence, `ValueError` from
`randrange` with an empty range, and `ZeroDivisionError` from
`get_clean_percentage` when the dirty-cell denominator is zero. -/
inductive SimError
  | indexError
  | valueError
  | zeroDivisionError
  deriving DecidableEq, Repr

/-- `RobotAgent` (robot.py lines 15-28): a cleaner with its position on the
grid, the `vacuuming` flag and the cumulative `moves` counter. -/
structure RobotAgent where
  uid : ℤ
  pos : ℕ × ℕ
  vacuuming : Bool
  moves : ℕ
  deriving DecidableEq, Repr

/-- `DirtyCell` (robot.py lines 60-66): a stationary dirty spot with its
`isClean` flag (initially `false`). -/
structure DirtyCell where
  uid : ℤ
  pos : ℕ × ℕ
  isClean : Bool
  deriving DecidableEq, Repr

/-- An agent registered with the scheduler is either a robot or a dirty cell. -/
inductive Agent
  | robot (r : RobotAgent)
  | dirty (d : DirtyCell)
  deriving DecidableEq, Repr

/-- Python's `%` on a wrapped coordinate: for `n ≥ 1` the result is in
`[0, n)` (Lean's `Int.emod` agrees with Python `%` for positive modulus). -/
def wrap (n : ℕ) (z : ℤ) : ℕ := (z % (n : ℤ)).toNat

/-- Remove duplicates keeping the first occurrence, skipping anything already
in `seen` (Mesa collects the neighbourhood in an insertion-ordered dict). -/
def dedupFirstAux : List (ℕ × ℕ) → List (ℕ × ℕ) → List (ℕ × ℕ)
  | _, [] => []
  | seen, p :: rest =>
    if p ∈ seen then dedupFirstAux seen rest
    else p :: dedupFirstAux (p :: seen) rest

/-- Remove duplicates keeping the first occurrence. -/
def dedupFirst (l : List (ℕ × ℕ)) : List (ℕ × ℕ) := dedupFirstAux [] l

/-- Modelled from the spec: `MultiGrid.get_neighborhood` (Mesa, not in src).
§4.1: "returns the set of up to 8 (Moore) neighboring coordinates, clipped or
wrapped per configured edge policy; ... exhaustive and duplicate-free", with
the centre cell excluded when `includeCenter=false` (the only mode the code
uses, robot.py line 35).  On a torus every offset is wrapped into range
before the centre-exclusion and duplicate check. -/
def getNeighborhood (torus : Bool) (w h : ℕ) (pos : ℕ × ℕ) : List (ℕ × ℕ) :=
  let xs : List ℤ := [(pos.1 : ℤ) - 1, (pos.1 : ℤ), (pos.1 : ℤ) + 1]
  let ys : List ℤ := [(pos.2 : ℤ) - 1, (pos.2 : ℤ), (pos.2 : ℤ) + 1]
  let cands : List (ℤ × ℤ) := (xs.map (fun a => ys.map (fun b => (a, b)))).flatten
  let cells : List (ℕ × ℕ) :=
    if torus then cands.map (fun q => (wrap w q.1, wrap h q.2))
    else (cands.filter (fun q =>
        decide (0 ≤ q.1 ∧ q.1 < (w : ℤ) ∧ 0 ≤ q.2 ∧ q.2 < (h : ℤ)))).map
        (fun q => (q.1.toNat, q.2.toNat))
  dedupFirst (cells.filter (fun q => decide (q ≠ pos)))

/-- `RobotAgent.clean`'s effect on one occupant (robot.py lines 42-47): a
dirty cell at the scanned position with `isClean=false` is set clean;
everything else is untouched. -/
def cleanDirty (p : ℕ × ℕ) : Agent → Agent
  | .dirty d => if d.pos = p ∧ d.isClean = false then .dirty {d with isClean := true} else .dirty d
  | .robot r => .robot r

/-- Whether some occupant of cell `p` is a dirty cell with `isClean=false`
(the condition under which `RobotAgent.clean` sets `vacuuming := true`). -/
def hasUncleanAt (p : ℕ × ℕ) (ags : List Agent) : Bool :=
  ags.any (fun a => match a with
    | .dirty d => decide (d.pos = p) && !d.isClean
    | .robot _ => false)

/-- One scheduler activation of the agent at index `i` of the agent list
(`RobotAgent.step`, robot.py lines 50-56, and `DirtyCell.step`, line 65-66).
`c` is the nondeterministic draw for `random.choice`: the chosen neighbour is
the entry at index `c % length`, and `random.choice` on an empty
neighbourhood raises `IndexError` (Python stdlib) before any mutation. -/
def activateAgent (torus : Bool) (w h : ℕ) (c : ℕ) (ags : List Agent) (i : ℕ) :
    Except SimError (List Agent) :=
  match ags.get? i with
  | none => .ok ags
  | some (.dirty _) => .ok ags
  | some (.robot r) =>
    if r.vacuuming then
      -- `clean()` then `self.vacuuming = False` (robot.py lines 54-56)
      .ok ((ags.map (cleanDirty r.pos)).set i (.robot {r with vacuuming := false}))
    else
      -- `move()` then `clean()` (robot.py lines 51-53)
      let ns := getNeighborhood torus w h r.pos
      if ns.isEmpty then .error .indexError
      else
        let p := ns.getD (c % ns.length) (0, 0)
        .ok ((ags.map (cleanDirty p)).set i
          (.robot {r with pos := p, moves := r.moves + 1, vacuuming := hasUncleanAt p ags}))

/-- Modelled from the spec: `RandomActivation.step` (Mesa, not in src).
§4.4: "activates every registered agent exactly once per call, in an order
that is randomized afresh each call".  `acts` lists the activation order as
(agent index, `random.choice` draw) pairs; theorems that need the
exactly-once guarantee hypothesise that the indices are a permutation of the
agent-list indices.  An exception aborts the iteration, leaving the
mutations already made in place. -/
def schedStep (torus : Bool) (w h : ℕ) :
    List Agent → List (ℕ × ℕ) → List Agent × Option SimError
  | ags, [] => (ags, none)
  | ags, (i, c) :: rest =>
    match activateAgent torus w h c ags i with
    | .error e => (ags, some e)
    | .ok ags1 => schedStep torus w h ags1 rest

/-- `CleaningRobots` model state (robot.py lines 70-99).  `num_agentsC`
stores `C + R` as after the accumulation on line 90.  `elapsed_time` is
wall-clock time in Python; only its `None`/set status is modelled.  The
data collector (line 99/116) is a pure observation buffer and is not part
of the modelled state. -/
structure CleaningRobots where
  width : ℕ
  height : ℕ
  torus : Bool
  num_agentsR : ℤ
  num_agentsC : ℤ
  max_steps : ℤ
  current_step : ℤ
  running : Bool
  elapsed_time : Option Unit
  agents : List Agent
  deriving DecidableEq, Repr

/-- The per-agent condition of `all_cells_clean`: a dirty cell must have
`isClean=true`; robots are not dirty cells, so the `isinstance` filter on
robot.py line 102 lets them pass vacuously. -/
def agentClean : Agent → Bool
  | .dirty d => d.isClean
  | .robot _ => true

/-- `isinstance(agent, DirtyCell) and agent.isClean` (robot.py line 105). -/
def isCleanDirty : Agent → Bool
  | .dirty d => d.isClean
  | .robot _ => false

/-- `isinstance(agent, RobotAgent)` (robot.py line 110). -/
def isRobotAgent : Agent → Bool
  | .robot _ => true
  | .dirty _ => false

/-- `isinstance(agent, DirtyCell)` (robot.py line 102). -/
def isDirtyAgent : Agent → Bool
  | .dirty _ => true
  | .robot _ => false

/-- `CleaningRobots.all_cells_clean` (robot.py lines 101-102): `all` over the
dirty cells, vacuously true when there are none. -/
def all_cells_clean (s : CleaningRobots) : Bool :=
  s.agents.all agentClean

/-- Number of dirty cells with `isClean=true` (the `sum` on robot.py line 105). -/
def cleanCount (s : CleaningRobots) : ℕ :=
  (s.agents.filter isCleanDirty).length

/-- `CleaningRobots.get_clean_percentage` (robot.py lines 104-107):
`(clean_cells / (num_agentsC - num_agentsR)) * 100`, raising
`ZeroDivisionError` (modelled as `none`) when the denominator is zero.
Python float arithmetic is modelled with exact rationals. -/
def get_clean_percentage (s : CleaningRobots) : Option ℚ :=
  let total : ℤ := s.num_agentsC - s.num_agentsR
  if total = 0 then none
  else some (((cleanCount s : ℚ) / (total : ℚ)) * 100)

/-- `CleaningRobots.total_moves` (robot.py lines 109-110). -/
def total_moves (s : CleaningRobots) : ℕ :=
  (s.agents.map (fun a => match a with | .robot r => r.moves | .dirty _ => 0)).sum

/-- The `R` robots created on robot.py lines 85-88: ids `0..R-1`, all placed
at `(0, 0)`, `vacuuming=false`, `moves=0`. -/
def mkRobots (R : ℕ) : List Agent :=
  (List.range R).map (fun (i : ℕ) => .robot ⟨(i : ℤ), (0, 0), false, 0⟩)

/-- The dirty cells created on robot.py lines 92-97: ids `R..R+C-1`, each at
an independently drawn random cell.  `randrange` is modelled by reading the
next value of the injected stream `g` modulo the bound (every in-range cell
is reachable for some stream); the `k`-th dirty cell consumes draws `2k` and
`2k+1`. -/
def mkDirty (Rid : ℤ) (C w h : ℕ) (g : ℕ → ℕ) : List Agent :=
  (List.range C).map (fun (k : ℕ) =>
    .dirty ⟨Rid + (k : ℤ), (g ((2 : ℕ) * k) % w, g ((2 : ℕ) * k + 1) % h), false⟩)

/-- `CleaningRobots.__init__` (robot.py lines 71-99).  The constructor
contains no validation and no raise of its own: `range` over a non-positive
count is simply empty.  The only failures are inherited ones, modelled here:
placing a robot on an empty (zero-extent) grid fails in Mesa (`Modelled from
the spec:` §4.1 `place` fails outside `[0,W)×[0,H)`; a Python non-positive
width gives the same empty grid as width 0, so `w = 0` stands for any
non-positive width), and `randrange` over an empty range raises
`ValueError` (Python stdlib).  The grid is a `MultiGrid(width, height, True)`
— the torus flag is the literal `True` on line 74. -/
def init (R C : ℤ) (w h : ℕ) (max_steps : ℤ) (g : ℕ → ℕ) :
    Except SimError CleaningRobots :=
  if 0 < R ∧ (w = 0 ∨ h = 0) then .error .indexError
  else if 0 < C ∧ (w = 0 ∨ h = 0) then .error .valueError
  else .ok {
    width := w
    height := h
    torus := true
    num_agentsR := R
    num_agentsC := C + R
    max_steps := max_steps
    current_step := 0
    running := true
    elapsed_time := none
    agents := mkRobots R.toNat ++ mkDirty R C.toNat w h g }

/-- `CleaningRobots.step` (robot.py lines 115-127): run the scheduler,
increment `current_step`, and when all cells are clean or the budget is
reached, set `elapsed_time` and print the summary — the percentage print on
line 125 evaluates `get_clean_percentage`, so a zero denominator raises
`ZeroDivisionError` there, after `elapsed_time` is set but before
`running = False` on line 127.  Note there is no check of `running`.
An exception inside the scheduler aborts before `current_step` increments. -/
def modelStep (s : CleaningRobots) (acts : List (ℕ × ℕ)) :
    CleaningRobots × Option SimError :=
  match schedStep s.torus s.width s.height s.agents acts with
  | (ags, some e) => ({s with agents := ags}, some e)
  | (ags, none) =>
    let s1 := {s with agents := ags, current_step := s.current_step + 1}
    if all_cells_clean s1 || decide (s1.max_steps ≤ s1.current_step) then
      let s2 := {s1 with elapsed_time := some ()}
      match get_clean_percentage s2 with
      | none => (s2, some .zeroDivisionError)
      | some _ => ({s2 with running := false}, none)
    else (s1, none)

/-- Zero or more completed (non-raising) calls to `CleaningRobots.step`,
with arbitrary scheduler orders and random draws. -/
inductive ReachesAny : CleaningRobots → CleaningRobots → Prop
  | refl (s : CleaningRobots) : ReachesAny s s
  | step {s t u : CleaningRobots} (acts : List (ℕ × ℕ)) :
      ReachesAny s t → modelStep t acts = (u, none) → ReachesAny s u

/-- A driver-style run (robot.py lines 133-134): completed `step` calls made
only while `running` is true. -/
inductive Run : CleaningRobots → CleaningRobots → Prop
  | refl (s : CleaningRobots) : Run s s
  | step {s t u : CleaningRobots} (acts : List (ℕ × ℕ)) :
      Run s t → t.running = true → modelStep t acts = (u, none) → Run s u

/-! ## Derived definitions and concrete example states -/

/-- All robots in the agent list sit inside the grid. -/
def robotsWithin (w h : ℕ) (ags : List Agent) : Prop :=
  ∀ r : RobotAgent, Agent.robot r ∈ ags → r.pos.1 < w ∧ r.pos.2 < h

/-- A fixed random stream (every draw is `0`). -/
def gZero : ℕ → ℕ := fun _ => 0

/-- `init 0 1 1 1 1 gZero`: one dirty cell at `(0,0)`, no robots. -/
def exC1s0 : CleaningRobots :=
  { width := 1, height := 1, torus := true, num_agentsR := 0, num_agentsC := 1,
    max_steps := 1, current_step := 0, running := true, elapsed_time := none,
    agents := [.dirty ⟨0, (0, 0), false⟩] }

/-- The state after one `step` of `exC1s0`: budget reached, `running=false`. -/
def exC1u : CleaningRobots :=
  { width := 1, height := 1, torus := true, num_agentsR := 0, num_agentsC := 1,
    max_steps := 1, current_step := 1, running := false, elapsed_time := some (),
    agents := [.dirty ⟨0, (0, 0), false⟩] }

/-- The start state for the C3 witness: a single already-clean dirty cell. -/
def exC3s0 : CleaningRobots :=
  { width := 1, height := 1, torus := true, num_agentsR := 0, num_agentsC := 1,
    max_steps := 5, current_step := 0, running := true, elapsed_time := none,
    agents := [.dirty ⟨0, (0, 0), true⟩] }

/-- The state after one `step` of `exC3s0`. -/
def exC3u : CleaningRobots :=
  { width := 1, height := 1, torus := true, num_agentsR := 0, num_agentsC := 1,
    max_steps := 5, current_step := 1, running := false, elapsed_time := some (),
    agents := [.dirty ⟨0, (0, 0), true⟩] }

/-- Start state for the C4 witness: one Idle robot and one dirty cell. -/
def exC4s0 : CleaningRobots :=
  { width := 2, height := 1, torus := true, num_agentsR := 1, num_agentsC := 2,
    max_steps := 5, current_step := 0, running := true, elapsed_time := none,
    agents := [.robot ⟨0, (0, 0), false, 0⟩, .dirty ⟨1, (1, 0), false⟩] }

/-- State after one `step` of `exC4s0`: the robot moved and cleaned. -/
def exC4u : CleaningRobots :=
  { width := 2, height := 1, torus := true, num_agentsR := 1, num_agentsC := 2,
    max_steps := 5, current_step := 1, running := false, elapsed_time := some (),
    agents := [.robot ⟨0, (1, 0), true, 1⟩, .dirty ⟨1, (1, 0), true⟩] }

/-- State after stepping `exC1u` once more (second post-stop step). -/
def exC8s2 : CleaningRobots :=
  { width := 1, height := 1, torus := true, num_agentsR := 0, num_agentsC := 1,
    max_steps := 1, current_step := 2, running := false, elapsed_time := some (),
    agents := [.dirty ⟨0, (0, 0), false⟩] }

/-- What one activation of a Cleaner does (`RobotAgent.step`): in the Idle
case, the robot moves to the neighbour selected by the `random.choice` draw
`c` — a member of the Moore neighbourhood, and every neighbour is selected
by some draw — increments `moves`, cleans every unclean dirty cell in the
destination cell, and its `vacuuming` flag becomes exactly "an unclean dirty
cell was found there"; in the Vacuuming case the robot does not move,
`moves` is unchanged, every unclean dirty cell of its current cell is
cleaned, and `vacuuming` is false afterwards regardless of what was found. -/
def ActivationStep (w h c i : ℕ) (ags ags' : List Agent) (r : RobotAgent) : Prop :=
  (r.vacuuming = false →
    ∃ p, p ∈ getNeighborhood true w h r.pos ∧
      p = (getNeighborhood true w h r.pos).getD
        (c % (getNeighborhood true w h r.pos).length) (0, 0) ∧
      ags'.get? i = some (.robot
        {r with pos := p, moves := r.moves + 1, vacuuming := hasUncleanAt p ags}) ∧
      (∀ j d, ags.get? j = some (.dirty d) → d.pos = p → d.isClean = false →
        ags'.get? j = some (.dirty {d with isClean := true})) ∧
      (hasUncleanAt p ags = true ↔
        ∃ d : DirtyCell, Agent.dirty d ∈ ags ∧ d.pos = p ∧ d.isClean = false) ∧
      (∀ q ∈ getNeighborhood true w h r.pos, ∃ c2,
        (getNeighborhood true w h r.pos).getD
          (c2 % (getNeighborhood true w h r.pos).length) (0, 0) = q)) ∧
  (r.vacuuming = true →
    ags'.get? i = some (.robot {r with vacuuming := false}) ∧
    (∀ j d, ags.get? j = some (.dirty d) → d.pos = r.pos → d.isClean = false →
      ags'.get? j = some (.dirty {d with isClean := true})))

/-- Agent list for the C2 witness: an Idle robot and an unclean dirty cell
one step to its right on a 2×1 grid. -/
def exC2ags : List Agent := [.robot ⟨0, (0, 0), false, 0⟩, .dirty ⟨1, (1, 0), false⟩]

/-- The same list after the robot's activation with draw 0. -/
def exC2ags' : List Agent := [.robot ⟨0, (1, 0), true, 1⟩, .dirty ⟨1, (1, 0), true⟩]

/-- The state in which a first `step` from a zero-dirty-cell initial state
raises: agents after the scheduler pass, `current_step` advanced,
`elapsed_time` set, `running` untouched. -/
def stepZeroDirtyState (R : ℤ) (w h : ℕ) (m : ℤ) (ags1 : List Agent) : CleaningRobots :=
  { width := w, height := h, torus := true, num_agentsR := R, num_agentsC := 0 + R,
    max_steps := m, current_step := 0 + 1, running := true, elapsed_time := some (),
    agents := ags1 }

/-- `init 1 0 2 1 5 gZero`: one robot, zero dirty cells, 2×1 grid. -/
def exC5s0 : CleaningRobots :=
  { width := 2, height := 1, torus := true, num_agentsR := 1, num_agentsC := 1,
    max_steps := 5, current_step := 0, running := true, elapsed_time := none,
    agents := [.robot ⟨0, (0, 0), false, 0⟩] }

/-- The partially mutated state when the first `step` of `exC5s0` raises
`ZeroDivisionError`: the robot moved, `current_step` advanced and
`elapsed_time` was set, but `running` was never reached. -/
def exC5u : CleaningRobots :=
  { width := 2, height := 1, torus := true, num_agentsR := 1, num_agentsC := 1,
    max_steps := 5, current_step := 1, running := true, elapsed_time := some (),
    agents := [.robot ⟨0, (1, 0), false, 1⟩] }

/-- `init 1 1 1 1 5 gZero`: one robot and one dirty cell on a 1×1 grid. -/
def exC6s0 : CleaningRobots :=
  { width := 1, height := 1, torus := true, num_agentsR := 1, num_agentsC := 2,
    max_steps := 5, current_step := 0, running := true, elapsed_time := none,
    agents := [.robot ⟨0, (0, 0), false, 0⟩, .dirty ⟨1, (0, 0), false⟩] }

/-- `init 1 (-1) 2 2 5 gZero`: a negative dirty-spot count builds a model
with one robot and no dirty cells — no exception at all. -/
def exC9s0 : CleaningRobots :=
  { width := 2, height := 2, torus := true, num_agentsR := 1, num_agentsC := 0,
    max_steps := 5, current_step := 0, running := true, elapsed_time := none,
    agents := [.robot ⟨0, (0, 0), false, 0⟩] }

/-- `init 1 1 2 2 5 gZero`: used to witness C10. -/
def exC10s0 : CleaningRobots :=
  { width := 2, height := 2, torus := true, num_agentsR := 1, num_agentsC := 2,
    max_steps := 5, current_step := 0, running := true, elapsed_time := none,
    agents := [.robot ⟨0, (0, 0), false, 0⟩, .dirty ⟨1, (0, 0), false⟩] }

/-! ## Lemmas -/

lemma wrap_lt (n : ℕ) (hn : 1 ≤ n) (z : ℤ) : wrap n z < n := by
  have h0 : (0 : ℤ) < (n : ℤ) := by exact_mod_cast hn
  have h1 : 0 ≤ z % (n : ℤ) := Int.emod_nonneg z (by omega)
  have h2 : z % (n : ℤ) < (n : ℤ) := Int.emod_lt_of_pos z h0
  unfold wrap
  omega

lemma wrap_self (n x : ℕ) (hx : x < n) : wrap n (x : ℤ) = x := by
  unfold wrap
  rw [Int.emod_eq_of_lt (by omega) (by exact_mod_cast hx)]
  simp

lemma wrap_succ_ne (n x : ℕ) (hx : x < n) (hn : 2 ≤ n) : wrap n ((x : ℤ) + 1) ≠ x := by
  unfold wrap
  rcases Nat.lt_or_ge (x + 1) n with h | h
  · rw [Int.emod_eq_of_lt (by omega) (by exact_mod_cast h)]
    omega
  · have hxn : x + 1 = n := by omega
    have hz : ((x : ℤ) + 1) % (n : ℤ) = 0 := by
      rw [show ((x : ℤ) + 1) = (n : ℤ) by exact_mod_cast hxn]
      exact Int.emod_self
    rw [hz]
    omega

lemma mem_dedupFirstAux {q : ℕ × ℕ} (l : List (ℕ × ℕ)) :
    ∀ seen, q ∈ dedupFirstAux seen l ↔ (q ∈ l ∧ q ∉ seen) := by
  induction l with
  | nil => intro seen; simp [dedupFirstAux]
  | cons p rest ih =>
    intro seen
    by_cases hp : p ∈ seen
    · rw [dedupFirstAux, if_pos hp, ih]
      constructor
      · rintro ⟨h1, h2⟩
        exact ⟨List.mem_cons_of_mem _ h1, h2⟩
      · rintro ⟨h1, h2⟩
        rcases List.mem_cons.mp h1 with rfl | h1
        · exact absurd hp h2
        · exact ⟨h1, h2⟩
    · rw [dedupFirstAux, if_neg hp]
      constructor
      · intro hmem
        rcases List.mem_cons.mp hmem with rfl | hmem
        · exact ⟨List.mem_cons_self _ _, hp⟩
        · rcases (ih _).mp hmem with ⟨h1, h2⟩
          rw [List.mem_cons, not_or] at h2
          exact ⟨List.mem_cons_of_mem _ h1, h2.2⟩
      · rintro ⟨h1, h2⟩
        rcases List.mem_cons.mp h1 with rfl | h1
        · exact List.mem_cons_self _ _
        · by_cases hqp : q = p
          · subst hqp; exact List.mem_cons_self _ _
          · refine List.mem_cons_of_mem _ ((ih _).mpr ⟨h1, ?_⟩)
            rw [List.mem_cons, not_or]
            exact ⟨hqp, h2⟩

lemma mem_dedupFirst {q : ℕ × ℕ} {l : List (ℕ × ℕ)} : q ∈ dedupFirst l ↔ q ∈ l := by
  rw [dedupFirst, mem_dedupFirstAux]
  simp

lemma dedupFirst_ne_nil {l : List (ℕ × ℕ)} (h : l ≠ []) : dedupFirst l ≠ [] := by
  cases l with
  | nil => exact absurd rfl h
  | cons p rest => simp [dedupFirst, dedupFirstAux]

/-- Unfolding of the torus neighbourhood (the only configuration the code
constructs). -/
lemma getNeighborhood_true_eq (w h : ℕ) (pos : ℕ × ℕ) :
    getNeighborhood true w h pos =
      dedupFirst (((([(pos.1 : ℤ) - 1, (pos.1 : ℤ), (pos.1 : ℤ) + 1].map (fun a =>
        [(pos.2 : ℤ) - 1, (pos.2 : ℤ), (pos.2 : ℤ) + 1].map (fun b => (a, b)))).flatten).map
        (fun q => (wrap w q.1, wrap h q.2))).filter (fun q => decide (q ≠ pos))) := rfl

lemma getNeighborhood_mem_bounds {w h : ℕ} (hw : 1 ≤ w) (hh : 1 ≤ h) {pos q : ℕ × ℕ}
    (hq : q ∈ getNeighborhood true w h pos) : q.1 < w ∧ q.2 < h := by
  rw [getNeighborhood_true_eq] at hq
  rw [mem_dedupFirst, List.mem_filter] at hq
  rcases List.mem_map.mp hq.1 with ⟨z, _, rfl⟩
  exact ⟨wrap_lt w hw z.1, wrap_lt h hh z.2⟩

lemma getNeighborhood_not_center {w h : ℕ} {pos q : ℕ × ℕ}
    (hq : q ∈ getNeighborhood true w h pos) : q ≠ pos := by
  rw [getNeighborhood_true_eq] at hq
  rw [mem_dedupFirst, List.mem_filter] at hq
  exact of_decide_eq_true hq.2

lemma getNeighborhood_nonempty {w h : ℕ} {pos : ℕ × ℕ}
    (hx : pos.1 < w) (hy : pos.2 < h) (hwh : 1 < w * h) :
    getNeighborhood true w h pos ≠ [] := by
  have hw : 1 ≤ w := Nat.one_le_iff_ne_zero.mpr (by omega)
  have hh : 1 ≤ h := Nat.one_le_iff_ne_zero.mpr (by omega)
  rw [getNeighborhood_true_eq]
  apply dedupFirst_ne_nil
  have hcase : 2 ≤ w ∨ 2 ≤ h := by
    by_contra hc
    rw [not_or] at hc
    have hw1 : w = 1 := by omega
    have hh1 : h = 1 := by omega
    rw [hw1, hh1] at hwh
    omega
  rcases hcase with hw2 | hh2
  · apply List.ne_nil_of_mem (a := (wrap w ((pos.1 : ℤ) + 1), wrap h (pos.2 : ℤ)))
    rw [List.mem_filter]
    constructor
    · rw [List.mem_map]
      refine ⟨((pos.1 : ℤ) + 1, (pos.2 : ℤ)), ?_, rfl⟩
      simp [List.mem_flatten]
    · rw [decide_eq_true_eq]
      intro hcontra
      exact wrap_succ_ne w pos.1 hx hw2 (congrArg Prod.fst hcontra)
  · apply List.ne_nil_of_mem (a := (wrap w (pos.1 : ℤ), wrap h ((pos.2 : ℤ) + 1)))
    rw [List.mem_filter]
    constructor
    · rw [List.mem_map]
      refine ⟨((pos.1 : ℤ), (pos.2 : ℤ) + 1), ?_, rfl⟩
      simp [List.mem_flatten]
    · rw [decide_eq_true_eq]
      intro hcontra
      exact wrap_succ_ne h pos.2 hy hh2 (congrArg Prod.snd hcontra)

lemma getD_mem {l : List (ℕ × ℕ)} (hl : l ≠ []) (c : ℕ) :
    l.getD (c % l.length) (0, 0) ∈ l := by
  have hlen : 0 < l.length := List.length_pos.mpr hl
  have hc : c % l.length < l.length := Nat.mod_lt _ hlen
  rw [List.getD_eq_get l (0, 0) hc]
  exact List.get_mem _ _ _

lemma cleanDirty_robot (p : ℕ × ℕ) (r : RobotAgent) :
    cleanDirty p (Agent.robot r) = Agent.robot r := rfl

lemma activateAgent_at_none {t : Bool} {w h c i : ℕ} {ags : List Agent}
    (hi : ags.get? i = none) : activateAgent t w h c ags i = .ok ags := by
  unfold activateAgent
  rw [hi]

lemma activateAgent_at_dirty {t : Bool} {w h c i : ℕ} {ags : List Agent} {d : DirtyCell}
    (hi : ags.get? i = some (.dirty d)) : activateAgent t w h c ags i = .ok ags := by
  unfold activateAgent
  rw [hi]

lemma activateAgent_at_vacuuming {t : Bool} {w h c i : ℕ} {ags : List Agent} {r : RobotAgent}
    (hi : ags.get? i = some (.robot r)) (hv : r.vacuuming = true) :
    activateAgent t w h c ags i =
      .ok ((ags.map (cleanDirty r.pos)).set i (.robot {r with vacuuming := false})) := by
  unfold activateAgent
  rw [hi]
  simp only [hv, if_true]

lemma activateAgent_at_idle {t : Bool} {w h c i : ℕ} {ags : List Agent} {r : RobotAgent}
    (hi : ags.get? i = some (.robot r)) (hv : r.vacuuming = false)
    (hns : getNeighborhood t w h r.pos ≠ []) :
    activateAgent t w h c ags i =
      .ok ((ags.map (cleanDirty ((getNeighborhood t w h r.pos).getD
            (c % (getNeighborhood t w h r.pos).length) (0, 0)))).set i
        (.robot {r with
          pos := (getNeighborhood t w h r.pos).getD
            (c % (getNeighborhood t w h r.pos).length) (0, 0),
          moves := r.moves + 1,
          vacuuming := hasUncleanAt ((getNeighborhood t w h r.pos).getD
            (c % (getNeighborhood t w h r.pos).length) (0, 0)) ags})) := by
  unfold activateAgent
  rw [hi]
  simp only [hv, if_false, Bool.false_eq_true]
  rw [if_neg (by simp [List.isEmpty_iff, hns])]

lemma activateAgent_at_idle_degenerate {t : Bool} {w h c i : ℕ} {ags : List Agent}
    {r : RobotAgent} (hi : ags.get? i = some (.robot r)) (hv : r.vacuuming = false)
    (hns : getNeighborhood t w h r.pos = []) :
    activateAgent t w h c ags i = .error .indexError := by
  unfold activateAgent
  rw [hi]
  simp only [hv, if_false, Bool.false_eq_true]
  rw [if_pos (by simp [List.isEmpty_iff, hns])]

lemma activateAgent_length {t : Bool} {w h c i : ℕ} {ags ags' : List Agent}
    (hok : activateAgent t w h c ags i = .ok ags') : ags'.length = ags.length := by
  rcases hget : ags.get? i with _ | a
  · rw [activateAgent_at_none hget] at hok
    cases hok; rfl
  · cases a with
    | dirty d =>
      rw [activateAgent_at_dirty hget] at hok
      cases hok; rfl
    | robot r =>
      cases hv : r.vacuuming with
      | true =>
        rw [activateAgent_at_vacuuming hget hv] at hok
        cases hok
        simp [List.length_set, List.length_map]
      | false =>
        rcases hns : getNeighborhood t w h r.pos with _ | _
        · rw [activateAgent_at_idle_degenerate hget hv hns] at hok
          cases hok
        · rw [activateAgent_at_idle hget hv (by rw [hns]; simp)] at hok
          cases hok
          simp [List.length_set, List.length_map]

lemma activateAgent_robot_frame {t : Bool} {w h c i j : ℕ} {ags ags' : List Agent}
    {r : RobotAgent} (hne : j ≠ i) (hj : ags.get? j = some (.robot r))
    (hok : activateAgent t w h c ags i = .ok ags') : ags'.get? j = some (.robot r) := by
  rcases hget : ags.get? i with _ | a
  · rw [activateAgent_at_none hget] at hok; cases hok; exact hj
  · cases a with
    | dirty d =>
      rw [activateAgent_at_dirty hget] at hok; cases hok; exact hj
    | robot r0 =>
      cases hv : r0.vacuuming with
      | true =>
        rw [activateAgent_at_vacuuming hget hv] at hok
        cases hok
        rw [List.get?_set_ne _ _ (fun hcontra => hne hcontra.symm), List.get?_map, hj]
        rfl
      | false =>
        rcases hns : getNeighborhood t w h r0.pos with _ | _
        · rw [activateAgent_at_idle_degenerate hget hv hns] at hok
          cases hok
        · rw [activateAgent_at_idle hget hv (by rw [hns]; simp)] at hok
          cases hok
          rw [List.get?_set_ne _ _ (fun hcontra => hne hcontra.symm), List.get?_map, hj]
          rfl

lemma cleanDirty_dirty_cases (p : ℕ × ℕ) (d : DirtyCell) :
    cleanDirty p (Agent.dirty d) = Agent.dirty d ∨
      (d.isClean = false ∧ cleanDirty p (Agent.dirty d) = Agent.dirty {d with isClean := true}) := by
  by_cases hcond : d.pos = p ∧ d.isClean = false
  · exact Or.inr ⟨hcond.2, by simp [cleanDirty, hcond]⟩
  · exact Or.inl (by simp [cleanDirty, hcond])

lemma activateAgent_self {t : Bool} {w h c i : ℕ} {ags ags' : List Agent} {r : RobotAgent}
    (hi : ags.get? i = some (.robot r))
    (hok : activateAgent t w h c ags i = .ok ags') :
    ∃ r', ags'.get? i = some (.robot r') ∧
      r'.moves = r.moves + (if r.vacuuming = true then 0 else 1) := by
  have hilen : i < ags.length := (List.get?_eq_some.mp hi).1
  cases hv : r.vacuuming with
  | true =>
    rw [activateAgent_at_vacuuming hi hv] at hok
    cases hok
    refine ⟨{r with vacuuming := false}, ?_, by simp⟩
    exact List.get?_set_eq_of_lt _ (by simpa using hilen)
  | false =>
    rcases hns : getNeighborhood t w h r.pos with _ | ⟨q, rest⟩
    · rw [activateAgent_at_idle_degenerate hi hv hns] at hok
      cases hok
    · rw [activateAgent_at_idle hi hv (by rw [hns]; simp)] at hok
      cases hok
      refine ⟨{r with
          pos := (getNeighborhood t w h r.pos).getD
            (c % (getNeighborhood t w h r.pos).length) (0, 0),
          moves := r.moves + 1,
          vacuuming := hasUncleanAt ((getNeighborhood t w h r.pos).getD
            (c % (getNeighborhood t w h r.pos).length) (0, 0)) ags}, ?_, by simp⟩
      exact List.get?_set_eq_of_lt _ (by simpa using hilen)

lemma activateAgent_dirty_evolution {t : Bool} {w h c i j : ℕ} {ags ags' : List Agent}
    {d : DirtyCell} (hj : ags.get? j = some (.dirty d))
    (hok : activateAgent t w h c ags i = .ok ags') :
    ags'.get? j = some (.dirty d) ∨
      (d.isClean = false ∧ ags'.get? j = some (.dirty {d with isClean := true})) := by
  rcases hget : ags.get? i with _ | a
  · rw [activateAgent_at_none hget] at hok; cases hok; exact Or.inl hj
  · cases a with
    | dirty d0 =>
      rw [activateAgent_at_dirty hget] at hok; cases hok; exact Or.inl hj
    | robot r0 =>
      have hne : i ≠ j := by
        intro hcontra
        subst hcontra
        rw [hget] at hj
        cases hj
      have key : ∀ (p : ℕ × ℕ) (x : Agent),
          ((ags.map (cleanDirty p)).set i x).get? j = some (cleanDirty p (.dirty d)) := by
        intro p x
        rw [List.get?_set_ne _ _ hne, List.get?_map, hj]
        rfl
      cases hv : r0.vacuuming with
      | true =>
        rw [activateAgent_at_vacuuming hget hv] at hok
        cases hok
        rw [key]
        rcases cleanDirty_dirty_cases r0.pos d with hcase | ⟨hcl, hcase⟩
        · exact Or.inl (by rw [hcase])
        · exact Or.inr ⟨hcl, by rw [hcase]⟩
      | false =>
        rcases hns : getNeighborhood t w h r0.pos with _ | ⟨q, rest⟩
        · rw [activateAgent_at_idle_degenerate hget hv hns] at hok
          cases hok
        · rw [activateAgent_at_idle hget hv (by rw [hns]; simp)] at hok
          cases hok
          rw [key]
          rcases cleanDirty_dirty_cases ((getNeighborhood t w h r0.pos).getD
              (c % (getNeighborhood t w h r0.pos).length) (0, 0)) d with hcase | ⟨hcl, hcase⟩
          · exact Or.inl (by rw [hcase])
          · exact Or.inr ⟨hcl, by rw [hcase]⟩

lemma activateAgent_dirty_sticky {t : Bool} {w h c i j : ℕ} {ags ags' : List Agent}
    {d : DirtyCell} (hj : ags.get? j = some (.dirty d)) (hcl : d.isClean = true)
    (hok : activateAgent t w h c ags i = .ok ags') : ags'.get? j = some (.dirty d) := by
  rcases activateAgent_dirty_evolution hj hok with hcase | ⟨hfalse, _⟩
  · exact hcase
  · rw [hcl] at hfalse
    cases hfalse

lemma hasUncleanAt_iff (p : ℕ × ℕ) (ags : List Agent) :
    hasUncleanAt p ags = true ↔
      ∃ d : DirtyCell, Agent.dirty d ∈ ags ∧ d.pos = p ∧ d.isClean = false := by
  unfold hasUncleanAt
  rw [List.any_eq_true]
  constructor
  · rintro ⟨a, ha, hpred⟩
    cases a with
    | robot r => cases hpred
    | dirty d =>
      simp only [Bool.and_eq_true, decide_eq_true_eq, Bool.not_eq_true'] at hpred
      exact ⟨d, ha, hpred.1, hpred.2⟩
  · rintro ⟨d, hmem, hpos, hclean⟩
    exact ⟨.dirty d, hmem, by simp [hpos, hclean]⟩

lemma robot_mem_of_mem_map_cleanDirty {p : ℕ × ℕ} {r : RobotAgent} {ags : List Agent}
    (hmem : Agent.robot r ∈ ags.map (cleanDirty p)) : Agent.robot r ∈ ags := by
  rcases List.mem_map.mp hmem with ⟨b, hb, heq⟩
  cases b with
  | robot r0 =>
    rw [cleanDirty_robot] at heq
    cases heq
    exact hb
  | dirty d =>
    exfalso
    rcases cleanDirty_dirty_cases p d with hcase | ⟨_, hcase⟩ <;> rw [hcase] at heq <;> cases heq

lemma activateAgent_ok_of_within {w h c i : ℕ} {ags : List Agent}
    (hwh : 1 < w * h) (hwithin : robotsWithin w h ags) :
    ∃ ags', activateAgent true w h c ags i = .ok ags' ∧ robotsWithin w h ags' := by
  have hw1 : 1 ≤ w := by
    rcases Nat.eq_zero_or_pos w with rfl | hpos
    · rw [Nat.zero_mul] at hwh; omega
    · exact hpos
  have hh1 : 1 ≤ h := by
    rcases Nat.eq_zero_or_pos h with rfl | hpos
    · rw [Nat.mul_zero] at hwh; omega
    · exact hpos
  rcases hget : ags.get? i with _ | a
  · exact ⟨ags, activateAgent_at_none hget, hwithin⟩
  · cases a with
    | dirty d => exact ⟨ags, activateAgent_at_dirty hget, hwithin⟩
    | robot r =>
      have hrpos := hwithin r (List.get?_mem hget)
      cases hv : r.vacuuming with
      | true =>
        refine ⟨_, activateAgent_at_vacuuming hget hv, ?_⟩
        intro r1 hmem1
        rcases List.mem_or_eq_of_mem_set hmem1 with hmem1 | heq
        · exact hwithin r1 (robot_mem_of_mem_map_cleanDirty hmem1)
        · cases heq
          exact hrpos
      | false =>
        have hns : getNeighborhood true w h r.pos ≠ [] :=
          getNeighborhood_nonempty hrpos.1 hrpos.2 hwh
        refine ⟨_, activateAgent_at_idle hget hv hns, ?_⟩
        have hpmem : (getNeighborhood true w h r.pos).getD
            (c % (getNeighborhood true w h r.pos).length) (0, 0) ∈
              getNeighborhood true w h r.pos := getD_mem hns c
        have hpb := getNeighborhood_mem_bounds hw1 hh1 hpmem
        intro r1 hmem1
        rcases List.mem_or_eq_of_mem_set hmem1 with hmem1 | heq
        · exact hwithin r1 (robot_mem_of_mem_map_cleanDirty hmem1)
        · cases heq
          exact hpb

lemma schedStep_nil (t : Bool) (w h : ℕ) (ags : List Agent) :
    schedStep t w h ags [] = (ags, none) := rfl

lemma schedStep_cons (t : Bool) (w h : ℕ) (ags : List Agent) (i c : ℕ)
    (rest : List (ℕ × ℕ)) :
    schedStep t w h ags ((i, c) :: rest) =
      match activateAgent t w h c ags i with
      | .error e => (ags, some e)
      | .ok ags1 => schedStep t w h ags1 rest := rfl

lemma schedStep_dirty_sticky {t : Bool} {w h j : ℕ} {d : DirtyCell} :
    ∀ (acts : List (ℕ × ℕ)) (ags ags1 : List Agent) (e : Option SimError),
      schedStep t w h ags acts = (ags1, e) →
      ags.get? j = some (.dirty d) → d.isClean = true →
      ags1.get? j = some (.dirty d) := by
  intro acts
  induction acts with
  | nil =>
    intro ags ags1 e hstep hj _
    rw [schedStep_nil, Prod.mk.injEq] at hstep
    rw [← hstep.1]
    exact hj
  | cons ac rest ih =>
    intro ags ags1 e hstep hj hcl
    obtain ⟨i, c⟩ := ac
    rw [schedStep_cons] at hstep
    cases hact : activateAgent t w h c ags i with
    | error e0 =>
      rw [hact] at hstep
      rw [Prod.mk.injEq] at hstep
      rw [← hstep.1]
      exact hj
    | ok ags0 =>
      rw [hact] at hstep
      exact ih _ _ _ hstep (activateAgent_dirty_sticky hj hcl hact) hcl

lemma schedStep_robot_frame {t : Bool} {w h j : ℕ} {r : RobotAgent} :
    ∀ (acts : List (ℕ × ℕ)) (ags ags1 : List Agent) (e : Option SimError),
      j ∉ acts.map Prod.fst →
      schedStep t w h ags acts = (ags1, e) →
      ags.get? j = some (.robot r) → ags1.get? j = some (.robot r) := by
  intro acts
  induction acts with
  | nil =>
    intro ags ags1 e _ hstep hj
    rw [schedStep_nil, Prod.mk.injEq] at hstep
    rw [← hstep.1]
    exact hj
  | cons ac rest ih =>
    intro ags ags1 e hnotin hstep hj
    obtain ⟨i, c⟩ := ac
    rw [List.map_cons, List.mem_cons, not_or] at hnotin
    rw [schedStep_cons] at hstep
    cases hact : activateAgent t w h c ags i with
    | error e0 =>
      rw [hact] at hstep
      rw [Prod.mk.injEq] at hstep
      rw [← hstep.1]
      exact hj
    | ok ags0 =>
      rw [hact] at hstep
      exact ih _ _ _ hnotin.2 hstep (activateAgent_robot_frame hnotin.1 hj hact)

lemma schedStep_robot_once {t : Bool} {w h j : ℕ} {r : RobotAgent} :
    ∀ (acts : List (ℕ × ℕ)) (ags ags1 : List Agent),
      (acts.map Prod.fst).count j = 1 →
      schedStep t w h ags acts = (ags1, none) →
      ags.get? j = some (.robot r) →
      ∃ r', ags1.get? j = some (.robot r') ∧
        r'.moves = r.moves + (if r.vacuuming = true then 0 else 1) := by
  intro acts
  induction acts with
  | nil =>
    intro ags ags1 hcount _ _
    simp at hcount
  | cons ac rest ih =>
    intro ags ags1 hcount hstep hj
    obtain ⟨i, c⟩ := ac
    rw [List.map_cons, List.count_cons] at hcount
    rw [schedStep_cons] at hstep
    by_cases hij : i = j
    · subst hij
      simp only [beq_self_eq_true, if_true] at hcount
      have hrest : (rest.map Prod.fst).count i = 0 := by omega
      rw [List.count_eq_zero] at hrest
      cases hact : activateAgent t w h c ags i with
      | error e0 =>
        rw [hact] at hstep
        rw [Prod.mk.injEq] at hstep
        cases hstep.2
      | ok ags0 =>
        rw [hact] at hstep
        rcases activateAgent_self hj hact with ⟨r', hr', hmoves⟩
        exact ⟨r', schedStep_robot_frame rest ags0 ags1 none hrest hstep hr', hmoves⟩
    · rw [if_neg (by simp only [beq_iff_eq]; exact hij)] at hcount
      cases hact : activateAgent t w h c ags i with
      | error e0 =>
        rw [hact] at hstep
        rw [Prod.mk.injEq] at hstep
        cases hstep.2
      | ok ags0 =>
        rw [hact] at hstep
        have hcount' : (rest.map Prod.fst).count j = 1 := by omega
        exact ih _ _ hcount' hstep
          (activateAgent_robot_frame (fun hcontra => hij hcontra.symm) hj hact)

lemma schedStep_ok_of_within {w h : ℕ} (hwh : 1 < w * h) :
    ∀ (acts : List (ℕ × ℕ)) (ags : List Agent), robotsWithin w h ags →
      ∃ ags1, schedStep true w h ags acts = (ags1, none) ∧ robotsWithin w h ags1 := by
  intro acts
  induction acts with
  | nil =>
    intro ags hwithin
    exact ⟨ags, rfl, hwithin⟩
  | cons ac rest ih =>
    intro ags hwithin
    obtain ⟨i, c⟩ := ac
    rcases activateAgent_ok_of_within hwh hwithin (c := c) (i := i) with ⟨ags0, hact, hwithin0⟩
    rcases ih ags0 hwithin0 with ⟨ags1, hrest, hwithin1⟩
    refine ⟨ags1, ?_, hwithin1⟩
    rw [schedStep_cons, hact]
    exact hrest

lemma allCleanList_iff (ags : List Agent) :
    ags.all agentClean = true ↔ ∀ d : DirtyCell, Agent.dirty d ∈ ags → d.isClean = true := by
  rw [List.all_eq_true]
  constructor
  · intro hall d hd
    exact hall _ hd
  · intro hall a ha
    cases a with
    | robot r => rfl
    | dirty d => exact hall d ha

lemma activateAgent_allClean {t : Bool} {w h c i : ℕ} {ags ags' : List Agent}
    (hall : ags.all agentClean = true)
    (hok : activateAgent t w h c ags i = .ok ags') : ags'.all agentClean = true := by
  rw [allCleanList_iff] at hall ⊢
  intro d hd
  rcases hget : ags.get? i with _ | a
  · rw [activateAgent_at_none hget] at hok; cases hok; exact hall d hd
  · cases a with
    | dirty d0 =>
      rw [activateAgent_at_dirty hget] at hok; cases hok; exact hall d hd
    | robot r0 =>
      have main : ∀ (p : ℕ × ℕ) (x : RobotAgent),
          Agent.dirty d ∈ (ags.map (cleanDirty p)).set i (.robot x) → d.isClean = true := by
        intro p x hmem
        rcases List.mem_or_eq_of_mem_set hmem with hmem | heq
        · rcases List.mem_map.mp hmem with ⟨b, hb, heq⟩
          cases b with
          | robot r1 => rw [cleanDirty_robot] at heq; cases heq
          | dirty d1 =>
            rcases cleanDirty_dirty_cases p d1 with hcase | ⟨_, hcase⟩ <;> rw [hcase] at heq
            · cases heq; exact hall _ hb
            · cases heq; rfl
        · cases heq
      cases hv : r0.vacuuming with
      | true =>
        rw [activateAgent_at_vacuuming hget hv] at hok; cases hok
        exact main _ _ hd
      | false =>
        rcases hns : getNeighborhood t w h r0.pos with _ | ⟨q, rest⟩
        · rw [activateAgent_at_idle_degenerate hget hv hns] at hok; cases hok
        · rw [activateAgent_at_idle hget hv (by rw [hns]; simp)] at hok; cases hok
          exact main _ _ hd

lemma schedStep_allClean {t : Bool} {w h : ℕ} :
    ∀ (acts : List (ℕ × ℕ)) (ags ags1 : List Agent) (e : Option SimError),
      ags.all agentClean = true →
      schedStep t w h ags acts = (ags1, e) → ags1.all agentClean = true := by
  intro acts
  induction acts with
  | nil =>
    intro ags ags1 e hall hstep
    rw [schedStep_nil, Prod.mk.injEq] at hstep
    rw [← hstep.1]
    exact hall
  | cons ac rest ih =>
    intro ags ags1 e hall hstep
    obtain ⟨i, c⟩ := ac
    rw [schedStep_cons] at hstep
    cases hact : activateAgent t w h c ags i with
    | error e0 =>
      rw [hact] at hstep
      rw [Prod.mk.injEq] at hstep
      rw [← hstep.1]
      exact hall
    | ok ags0 =>
      rw [hact] at hstep
      exact ih _ _ _ (activateAgent_allClean hall hact) hstep

lemma modelStep_ok_inv {s u : CleaningRobots} {acts : List (ℕ × ℕ)}
    (hok : modelStep s acts = (u, none)) :
    schedStep s.torus s.width s.height s.agents acts = (u.agents, none) ∧
    u.current_step = s.current_step + 1 ∧
    u.width = s.width ∧ u.height = s.height ∧ u.torus = s.torus ∧
    u.num_agentsR = s.num_agentsR ∧ u.num_agentsC = s.num_agentsC ∧
    u.max_steps = s.max_steps ∧
    ((all_cells_clean u || decide (u.max_steps ≤ u.current_step)) = true →
      u.running = false) ∧
    ((all_cells_clean u || decide (u.max_steps ≤ u.current_step)) = false →
      u.running = s.running ∧ u.elapsed_time = s.elapsed_time) := by
  unfold modelStep at hok
  rcases hs : schedStep s.torus s.width s.height s.agents acts with ⟨ags, e⟩
  rw [hs] at hok
  cases e with
  | some e0 =>
    rw [Prod.mk.injEq] at hok
    cases hok.2
  | none =>
    dsimp only at hok
    by_cases hcond : (all_cells_clean {s with agents := ags, current_step := s.current_step + 1}
        || decide (s.max_steps ≤ s.current_step + 1)) = true
    · rw [if_pos hcond] at hok
      split at hok
      · rw [Prod.mk.injEq] at hok
        cases hok.2
      · rw [Prod.mk.injEq] at hok
        have hu := hok.1
        subst hu
        refine ⟨rfl, rfl, rfl, rfl, rfl, rfl, rfl, rfl, fun _ => rfl, fun hfalse => ?_⟩
        exfalso
        have htrue2 : (ags.all agentClean
            || decide (s.max_steps ≤ s.current_step + 1)) = true := hcond
        have hfalse2 : (ags.all agentClean
            || decide (s.max_steps ≤ s.current_step + 1)) = false := hfalse
        rw [htrue2] at hfalse2
        cases hfalse2
    · rw [if_neg hcond] at hok
      rw [Prod.mk.injEq] at hok
      have hu := hok.1
      subst hu
      refine ⟨rfl, rfl, rfl, rfl, rfl, rfl, rfl, rfl, fun htrue => ?_, fun _ => ⟨rfl, rfl⟩⟩
      exfalso
      exact hcond htrue

lemma Run.toReachesAny {s u : CleaningRobots} (h : Run s u) : ReachesAny s u := by
  induction h with
  | refl => exact ReachesAny.refl s
  | step acts _ _ hstep ih => exact ReachesAny.step acts ih hstep

lemma reach_fields {s u : CleaningRobots} (h : ReachesAny s u) :
    u.width = s.width ∧ u.height = s.height ∧ u.torus = s.torus ∧
    u.num_agentsR = s.num_agentsR ∧ u.num_agentsC = s.num_agentsC ∧
    u.max_steps = s.max_steps := by
  induction h with
  | refl => exact ⟨rfl, rfl, rfl, rfl, rfl, rfl⟩
  | step acts _ hstep ih =>
    obtain ⟨_, _, hw, hh, ht, hR, hC, hM, _, _⟩ := modelStep_ok_inv hstep
    exact ⟨hw.trans ih.1, hh.trans ih.2.1, ht.trans ih.2.2.1, hR.trans ih.2.2.2.1,
      hC.trans ih.2.2.2.2.1, hM.trans ih.2.2.2.2.2⟩

lemma run_frozen {u v : CleaningRobots} (hrun : u.running = false) (h : Run u v) : v = u := by
  induction h with
  | refl => rfl
  | step acts _ ht _ ih =>
    rw [ih] at ht
    rw [hrun] at ht
    cases ht

lemma run_current_step_le {s0 t : CleaningRobots} (hrun : Run s0 t)
    (h0 : s0.current_step = 0) (hm : 1 ≤ s0.max_steps) :
    t.current_step ≤ t.max_steps ∧ (t.running = true → t.current_step < t.max_steps) := by
  induction hrun with
  | refl =>
    constructor
    · rw [h0]; omega
    · intro _; rw [h0]; omega
  | @step t u acts hr ht hstep ih =>
    obtain ⟨hle, hlt⟩ := ih
    obtain ⟨_, hcs, _, _, _, _, _, hms, himp1, _⟩ := modelStep_ok_inv hstep
    have htlt := hlt ht
    constructor
    · rw [hcs, hms]; omega
    · intro hurun
      by_contra hcontra
      have hge : u.max_steps ≤ u.current_step := by omega
      have hbool : (all_cells_clean u || decide (u.max_steps ≤ u.current_step)) = true := by
        rw [Bool.or_eq_true]
        right
        rw [decide_eq_true_eq]
        exact hge
      rw [himp1 hbool] at hurun
      cases hurun

lemma reach_dirty_sticky {s u : CleaningRobots} (hreach : ReachesAny s u) {j : ℕ}
    {d : DirtyCell} (hj : s.agents.get? j = some (.dirty d)) (hcl : d.isClean = true) :
    u.agents.get? j = some (.dirty d) := by
  induction hreach with
  | refl => exact hj
  | step acts _ hstep ih =>
    obtain ⟨hsched, _⟩ := modelStep_ok_inv hstep
    exact schedStep_dirty_sticky acts _ _ _ hsched ih hcl

lemma init_ok_inv {R C : ℤ} {w h : ℕ} {m : ℤ} {g : ℕ → ℕ} {s0 : CleaningRobots}
    (hinit : init R C w h m g = .ok s0) :
    s0 = { width := w, height := h, torus := true, num_agentsR := R, num_agentsC := C + R,
           max_steps := m, current_step := 0, running := true, elapsed_time := none,
           agents := mkRobots R.toNat ++ mkDirty R C.toNat w h g } := by
  unfold init at hinit
  split at hinit
  · cases hinit
  · split at hinit
    · cases hinit
    · exact (Except.ok.inj hinit).symm

lemma init_ok_of_pos {R C : ℤ} {w h : ℕ} (hw : 1 ≤ w) (hh : 1 ≤ h) (m : ℤ) (g : ℕ → ℕ) :
    init R C w h m g = .ok
      { width := w, height := h, torus := true, num_agentsR := R, num_agentsC := C + R,
        max_steps := m, current_step := 0, running := true, elapsed_time := none,
        agents := mkRobots R.toNat ++ mkDirty R C.toNat w h g } := by
  unfold init
  rw [if_neg (by omega), if_neg (by omega)]

lemma cleanDirty_cleans {p : ℕ × ℕ} {d : DirtyCell} (hpos : d.pos = p)
    (hcl : d.isClean = false) :
    cleanDirty p (Agent.dirty d) = Agent.dirty {d with isClean := true} := by
  simp [cleanDirty, hpos, hcl]

lemma get?_set_map_cleanDirty {p : ℕ × ℕ} {ags : List Agent} {i j : ℕ} {x : Agent}
    {d : DirtyCell} {r0 : RobotAgent} (hi : ags.get? i = some (.robot r0))
    (hj : ags.get? j = some (.dirty d)) :
    ((ags.map (cleanDirty p)).set i x).get? j = some (cleanDirty p (.dirty d)) := by
  have hne : i ≠ j := by
    intro hcontra
    subst hcontra
    rw [hi] at hj
    cases hj
  rw [List.get?_set_ne _ _ hne, List.get?_map, hj]
  rfl

lemma mkRobots_mem {n : ℕ} {a : Agent} (ha : a ∈ mkRobots n) :
    ∃ i : ℕ, i < n ∧ a = .robot ⟨(i : ℤ), (0, 0), false, 0⟩ := by
  rcases List.mem_map.mp ha with ⟨i, hi, rfl⟩
  exact ⟨i, List.mem_range.mp hi, rfl⟩

lemma mkRobots_all_clean (n : ℕ) : (mkRobots n).all agentClean = true := by
  rw [List.all_eq_true]
  intro a ha
  rcases mkRobots_mem ha with ⟨i, _, rfl⟩
  rfl

lemma perm_pair_cases {l : List ℕ} (h : l.Perm [0, 1]) : l = [0, 1] ∨ l = [1, 0] := by
  rcases l with _ | ⟨a, _ | ⟨b, _ | ⟨x, xs⟩⟩⟩
  · have hlen := h.length_eq
    simp at hlen
  · have hlen := h.length_eq
    simp at hlen
  · have h0 : 0 ∈ [a, b] := h.mem_iff.mpr (by simp)
    have h1 : 1 ∈ [a, b] := h.mem_iff.mpr (by simp)
    simp only [List.mem_cons, List.not_mem_nil, or_false] at h0 h1
    rcases h0 with h0 | h0 <;> rcases h1 with h1 | h1
    · omega
    · left
      rw [← h0, ← h1]
    · right
      rw [← h0, ← h1]
    · omega
  · have hlen := h.length_eq
    simp at hlen

lemma mkDirty_mem {Rid : ℤ} {C w h : ℕ} {g : ℕ → ℕ} {a : Agent}
    (ha : a ∈ mkDirty Rid C w h g) :
    ∃ k : ℕ, k < C ∧ a = .dirty ⟨Rid + (k : ℤ), (g (2 * k) % w, g (2 * k + 1) % h), false⟩ := by
  rcases List.mem_map.mp ha with ⟨k, hk, rfl⟩
  exact ⟨k, List.mem_range.mp hk, rfl⟩

lemma agents_filter_robot_length (n : ℕ) (Rid : ℤ) (C w h : ℕ) (g : ℕ → ℕ) :
    ((mkRobots n ++ mkDirty Rid C w h g).filter isRobotAgent).length = n := by
  rw [List.filter_append,
    List.filter_eq_self.mpr
      (fun a ha => by rcases mkRobots_mem ha with ⟨i, _, rfl⟩; rfl),
    List.filter_eq_nil_iff.mpr
      (fun a ha => by rcases mkDirty_mem ha with ⟨k, _, rfl⟩; simp [isRobotAgent])]
  simp [mkRobots]

lemma agents_filter_dirty_length (n : ℕ) (Rid : ℤ) (C w h : ℕ) (g : ℕ → ℕ) :
    ((mkRobots n ++ mkDirty Rid C w h g).filter isDirtyAgent).length = C := by
  rw [List.filter_append,
    List.filter_eq_nil_iff.mpr
      (fun a ha => by rcases mkRobots_mem ha with ⟨i, _, rfl⟩; simp [isDirtyAgent]),
    List.filter_eq_self.mpr
      (fun a ha => by rcases mkDirty_mem ha with ⟨k, _, rfl⟩; rfl)]
  simp [mkDirty]

lemma agents_get?_dirty (n : ℕ) (Rid : ℤ) (C w h : ℕ) (g : ℕ → ℕ) (k : ℕ) (hk : k < C) :
    (mkRobots n ++ mkDirty Rid C w h g).get? (n + k) =
      some (.dirty ⟨Rid + (k : ℤ), (g (2 * k) % w, g (2 * k + 1) % h), false⟩) := by
  have hlen : (mkRobots n).length = n := by simp [mkRobots]
  rw [List.get?_append_right (by rw [hlen]; omega), hlen]
  have hsub : n + k - n = k := by omega
  rw [hsub]
  unfold mkDirty
  rw [List.get?_map, List.get?_range hk]
  rfl

/-! ## Claim theorems and witnesses -/

/-- C1: in a driver-style run (`step` called only while `running` is true,
from a validly configured model with `max_steps ≥ 1`), after each completed
call to `step`: `running` is false iff every dirty cell is clean or
`current_step ≥ max_steps`; `current_step` never exceeds `max_steps`; and
once `running` is false the run is frozen, so the flag flips from true to
false at most once over the run. -/
theorem run_termination_invariants
    (R C : ℤ) (w h : ℕ) (m : ℤ) (g : ℕ → ℕ)
    (s0 t u : CleaningRobots) (acts : List (ℕ × ℕ))
    (hinit : init R C w h m g = .ok s0) (hm : 1 ≤ m)
    (hrun : Run s0 t) (ht : t.running = true)
    (hstep : modelStep t acts = (u, none)) :
    (u.running = false ↔ (all_cells_clean u = true ∨ m ≤ u.current_step)) ∧
    u.current_step ≤ m ∧
    (u.running = false → ∀ v, Run u v → v = u) := by
  have hs0 := init_ok_inv hinit
  have h0cs : s0.current_step = 0 := by rw [hs0]
  have h0m : s0.max_steps = m := by rw [hs0]
  have hm0 : 1 ≤ s0.max_steps := by rw [h0m]; exact hm
  have hrun_u : Run s0 u := Run.step acts hrun ht hstep
  have hmax_t : t.max_steps = m := by
    have hfix := (reach_fields (Run.toReachesAny hrun)).2.2.2.2.2
    rw [hfix, h0m]
  obtain ⟨_, hcs, _, _, _, _, _, hmax_u', himp1, himp2⟩ := modelStep_ok_inv hstep
  have hmax_u : u.max_steps = m := by rw [hmax_u', hmax_t]
  have hle_u := (run_current_step_le hrun_u h0cs hm0).1
  refine ⟨⟨?_, ?_⟩, ?_, ?_⟩
  · intro hrf
    by_contra hcond
    rw [not_or] at hcond
    have hb1 : all_cells_clean u = false := by
      cases hb : all_cells_clean u
      · rfl
      · exact absurd hb hcond.1
    have hb2 : decide (u.max_steps ≤ u.current_step) = false := by
      rw [decide_eq_false_iff_not, hmax_u]
      exact hcond.2
    have hfalse : (all_cells_clean u || decide (u.max_steps ≤ u.current_step)) = false := by
      rw [hb1, hb2]
      rfl
    have hpres := (himp2 hfalse).1
    rw [hpres, ht] at hrf
    cases hrf
  · intro hcond
    apply himp1
    rw [Bool.or_eq_true]
    rcases hcond with hA | hB
    · exact Or.inl hA
    · right
      rw [decide_eq_true_eq, hmax_u]
      exact hB
  · rw [← hmax_u]
    exact hle_u
  · intro hrf v hrv
    exact run_frozen hrf hrv

/-- Witness for C1 on the concrete run `init 0 1 1 1 1`, one step. -/
theorem run_termination_invariants_witness :
    (exC1u.running = false ↔ (all_cells_clean exC1u = true ∨ (1 : ℤ) ≤ exC1u.current_step)) ∧
    exC1u.current_step ≤ (1 : ℤ) ∧
    (exC1u.running = false → ∀ v, Run exC1u v → v = exC1u) :=
  run_termination_invariants 0 1 1 1 1 gZero exC1s0 exC1s0 exC1u [(0, 0)]
    rfl (by decide) (Run.refl exC1s0) rfl rfl

/-- C3: once a dirty cell's `isClean` flag is true, it stays true (and the
cell itself is wholly unchanged) after any sequence of completed `step`
calls. -/
theorem dirty_clean_sticky (s u : CleaningRobots) (hreach : ReachesAny s u) (j : ℕ)
    (d : DirtyCell) (hj : s.agents.get? j = some (.dirty d)) (hcl : d.isClean = true) :
    u.agents.get? j = some (.dirty d) :=
  reach_dirty_sticky hreach hj hcl

/-- Witness for C3: a concrete completed step preserves the clean flag. -/
theorem dirty_clean_sticky_witness :
    exC3u.agents.get? 0 = some (.dirty ⟨0, (0, 0), true⟩) :=
  dirty_clean_sticky exC3s0 exC3u
    (ReachesAny.step [(0, 0)] (ReachesAny.refl exC3s0) rfl) 0 ⟨0, (0, 0), true⟩ rfl rfl

/-- C4: over one completed tick in which the scheduler activates every agent
exactly once, each robot's `moves` counter grows by exactly one if the robot
started the tick Idle (`vacuuming=false`), and is unchanged if it started
Vacuuming; in particular it is always unchanged or exactly one greater.
A robot's `vacuuming` flag is mutated only by its own activation, so its
value at the start of the tick is its value at the start of the robot's
activation. -/
theorem moves_increment_iff_idle (s u : CleaningRobots) (acts : List (ℕ × ℕ))
    (hperm : (acts.map Prod.fst).Perm (List.range s.agents.length))
    (hstep : modelStep s acts = (u, none)) (i : ℕ) (r : RobotAgent)
    (hi : s.agents.get? i = some (.robot r)) :
    ∃ r', u.agents.get? i = some (.robot r') ∧
      r'.moves = r.moves + (if r.vacuuming = true then 0 else 1) ∧
      (r'.moves = r.moves ∨ r'.moves = r.moves + 1) := by
  have hilen : i < s.agents.length := (List.get?_eq_some.mp hi).1
  have hcount : (acts.map Prod.fst).count i = 1 := by
    rw [hperm.count_eq]
    exact List.count_eq_one_of_mem (List.nodup_range _) (List.mem_range.mpr hilen)
  obtain ⟨hsched, _⟩ := modelStep_ok_inv hstep
  rcases schedStep_robot_once acts _ _ hcount hsched hi with ⟨r', hr', hmoves⟩
  refine ⟨r', hr', hmoves, ?_⟩
  by_cases hv : r.vacuuming = true
  · left
    rw [hv] at hmoves
    simpa using hmoves
  · right
    rw [if_neg hv] at hmoves
    exact hmoves

/-- Witness for C4 on a concrete tick. -/
theorem moves_increment_iff_idle_witness :
    ∃ r', exC4u.agents.get? 0 = some (.robot r') ∧
      r'.moves = (⟨0, (0, 0), false, 0⟩ : RobotAgent).moves +
        (if (⟨0, (0, 0), false, 0⟩ : RobotAgent).vacuuming = true then 0 else 1) ∧
      (r'.moves = (⟨0, (0, 0), false, 0⟩ : RobotAgent).moves ∨
        r'.moves = (⟨0, (0, 0), false, 0⟩ : RobotAgent).moves + 1) :=
  moves_increment_iff_idle exC4s0 exC4u [(0, 0), (1, 0)] (by decide) rfl 0
    ⟨0, (0, 0), false, 0⟩ rfl

/-- C8 counterexample: `step` does not check `running`.  From the real run
`init 0 1 1 1 1` the simulation stops after one step (`running=false`,
`current_step=1`), yet a further call to `step` completes and increments
`current_step` to 2 — it is not a no-op, contradicting the claim. -/
theorem step_not_noop_after_stop_cx :
    init 0 1 1 1 1 gZero = .ok exC1s0 ∧
    modelStep exC1s0 [(0, 0)] = (exC1u, none) ∧
    exC1u.running = false ∧
    (modelStep exC1u [(0, 0)]).2 = none ∧
    (modelStep exC1u [(0, 0)]).1.current_step = 2 ∧
    exC1u.current_step = 1 := by
  refine ⟨rfl, rfl, rfl, rfl, rfl, rfl⟩

/-- C8 amended: a call to `step` with `running=false` is not a no-op — it
activates the agents and increments `current_step` — but `running` itself
stays false (the code only ever assigns `False` to it). -/
theorem step_after_stop (s u : CleaningRobots) (acts : List (ℕ × ℕ))
    (hrun : s.running = false) (hstep : modelStep s acts = (u, none)) :
    u.current_step = s.current_step + 1 ∧ u.running = false := by
  obtain ⟨_, hcs, _, _, _, _, _, _, himp1, himp2⟩ := modelStep_ok_inv hstep
  refine ⟨hcs, ?_⟩
  cases hbool : (all_cells_clean u || decide (u.max_steps ≤ u.current_step)) with
  | true => exact himp1 hbool
  | false =>
    rw [(himp2 hbool).1]
    exact hrun

/-- Witness for the amended C8 on a concrete post-termination step. -/
theorem step_after_stop_witness :
    exC8s2.current_step = exC1u.current_step + 1 ∧ exC8s2.running = false :=
  step_after_stop exC1u exC8s2 [(0, 0)] rfl rfl

/-- C2: every completed activation of a Cleaner behaves as `ActivationStep`
describes — Idle: uniform-random move (modelled as a nondeterministic draw
over the Moore neighbourhood, every neighbour reachable), clean the
destination, set `vacuuming` iff an unclean spot was found; Vacuuming: no
move, re-scan and clean the current cell, `vacuuming` false afterwards
regardless. -/
theorem cleaner_activation_spec (w h c i : ℕ) (ags ags' : List Agent) (r : RobotAgent)
    (hi : ags.get? i = some (.robot r))
    (hok : activateAgent true w h c ags i = .ok ags') :
    ActivationStep w h c i ags ags' r := by
  have hilen : i < ags.length := (List.get?_eq_some.mp hi).1
  constructor
  · intro hv
    by_cases hne2 : getNeighborhood true w h r.pos = []
    · rw [activateAgent_at_idle_degenerate hi hv hne2] at hok
      cases hok
    · have hne : getNeighborhood true w h r.pos ≠ [] := hne2
      rw [activateAgent_at_idle hi hv hne] at hok
      cases hok
      refine ⟨(getNeighborhood true w h r.pos).getD
          (c % (getNeighborhood true w h r.pos).length) (0, 0),
        getD_mem hne c, rfl, ?_, ?_, hasUncleanAt_iff _ _, ?_⟩
      · exact List.get?_set_eq_of_lt _ (by simpa using hilen)
      · intro j d hj hpos hcl
        rw [get?_set_map_cleanDirty hi hj, cleanDirty_cleans hpos hcl]
      · intro q hq
        rcases List.mem_iff_get.mp hq with ⟨⟨k, hk⟩, rfl⟩
        refine ⟨k, ?_⟩
        rw [Nat.mod_eq_of_lt hk, List.getD_eq_get _ _ hk]
  · intro hv
    rw [activateAgent_at_vacuuming hi hv] at hok
    cases hok
    refine ⟨?_, ?_⟩
    · exact List.get?_set_eq_of_lt _ (by simpa using hilen)
    · intro j d hj hpos hcl
      rw [get?_set_map_cleanDirty hi hj, cleanDirty_cleans hpos hcl]

/-- Witness for C2 on a concrete Idle activation. -/
theorem cleaner_activation_spec_witness :
    ActivationStep 2 1 0 0 exC2ags exC2ags' ⟨0, (0, 0), false, 0⟩ :=
  cleaner_activation_spec 2 1 0 0 exC2ags exC2ags' ⟨0, (0, 0), false, 0⟩ rfl rfl

/-- C5 counterexample: with `C=0` (here `R=1`, 2×1 grid) the first call to
`step` reaches the termination branch but `get_clean_percentage` has a zero
denominator, so the call raises `ZeroDivisionError` and `running` is never
set to false — contradicting "terminates ... without raising any error, with
cleanPercentage() defined per the documented policy". -/
theorem zero_dirty_step_raises_cx :
    init 1 0 2 1 5 gZero = .ok exC5s0 ∧
    all_cells_clean exC5s0 = true ∧
    get_clean_percentage exC5s0 = none ∧
    modelStep exC5s0 [(0, 0)] = (exC5u, some .zeroDivisionError) ∧
    exC5u.running = true ∧ exC5u.current_step = 1 :=
  ⟨rfl, rfl, rfl, rfl, rfl, rfl⟩

/-- C5 amended: with `C=0` dirty spots (any `R`, any grid with `w ≥ 2`,
`h ≥ 1` so that robot moves cannot themselves raise), `all_cells_clean` is
true immediately, but `get_clean_percentage` is undefined (zero denominator,
no policy in the code), and every first call to `step` reaches the
termination branch at `current_step = 1` and raises `ZeroDivisionError`
there, leaving `running` still true. -/
theorem zero_dirty_step_raises (R : ℤ) (w h : ℕ) (hw : 2 ≤ w) (hh : 1 ≤ h)
    (m : ℤ) (g : ℕ → ℕ) (s0 : CleaningRobots) (hinit : init R 0 w h m g = .ok s0)
    (acts : List (ℕ × ℕ)) :
    all_cells_clean s0 = true ∧ get_clean_percentage s0 = none ∧
    ∃ u, modelStep s0 acts = (u, some .zeroDivisionError) ∧
      u.running = true ∧ u.current_step = 1 ∧ u.elapsed_time = some () := by
  have hs0 := init_ok_inv hinit
  subst hs0
  have hAclean : (mkRobots R.toNat ++ mkDirty R ((0 : ℤ)).toNat w h g).all agentClean
      = true := by
    rw [List.all_append, mkRobots_all_clean]
    simp [mkDirty]
  have hwithin : robotsWithin w h (mkRobots R.toNat ++ mkDirty R ((0 : ℤ)).toNat w h g) := by
    intro r hr
    rw [List.mem_append] at hr
    rcases hr with hr | hr
    · rcases mkRobots_mem hr with ⟨i, _, heq⟩
      cases heq
      refine ⟨?_, ?_⟩ <;> dsimp only <;> omega
    · simp [mkDirty] at hr
  have hwh : 1 < w * h := by
    have hmul : 2 * 1 ≤ w * h := Nat.mul_le_mul hw hh
    omega
  rcases schedStep_ok_of_within hwh acts _ hwithin with ⟨ags1, hsched, _⟩
  have hclean1 : ags1.all agentClean = true :=
    schedStep_allClean acts _ _ none hAclean hsched
  refine ⟨hAclean, ?_, ?_⟩
  · unfold get_clean_percentage
    dsimp only
    rw [if_pos (by omega : (0 : ℤ) + R - R = 0)]
  · refine ⟨stepZeroDirtyState R w h m ags1, ?_, rfl, rfl, rfl⟩
    unfold modelStep
    dsimp only
    rw [hsched]
    dsimp only
    split
    · split
      · rfl
      · rename_i hq
        unfold get_clean_percentage at hq
        dsimp only at hq
        rw [if_pos (by omega : (0 : ℤ) + R - R = 0)] at hq
        cases hq
    · rename_i hcond
      exact absurd (by rw [Bool.or_eq_true]; exact Or.inl hclean1) hcond

/-- Witness for the amended C5 at a concrete configuration. -/
theorem zero_dirty_step_raises_witness :
    all_cells_clean exC5s0 = true ∧ get_clean_percentage exC5s0 = none ∧
    ∃ u, modelStep exC5s0 [(0, 0)] = (u, some .zeroDivisionError) ∧
      u.running = true ∧ u.current_step = 1 ∧ u.elapsed_time = some () :=
  zero_dirty_step_raises 1 2 1 (by decide) (by decide) 5 gZero exC5s0 rfl [(0, 0)]

/-- C6 counterexample: on a 1×1 grid with `R=1`, `C=1`, the torus Moore
neighbourhood excluding the centre is empty, so the Cleaner's first
activation raises `IndexError` inside `random.choice`; `step` propagates it
with the state unchanged — the DirtySpot is never cleaned, contradicting
"no call to Model.step() raises an error ... isClean=true after the
Cleaner's first activation". -/
theorem one_by_one_step_raises_cx :
    init 1 1 1 1 5 gZero = .ok exC6s0 ∧
    modelStep exC6s0 [(0, 0), (1, 0)] = (exC6s0, some .indexError) ∧
    exC6s0.agents.get? 1 = some (.dirty ⟨1, (0, 0), false⟩) ∧
    getNeighborhood true 1 1 (0, 0) = [] :=
  ⟨rfl, rfl, rfl, rfl⟩

/-- C6 amended: on a 1×1 grid with `R=1`, `C=1`, the Moore neighbourhood
excluding the centre is empty, and every first `step` call (whatever the
scheduler's order of the two agents) raises `IndexError` from
`random.choice`, leaving the model state unchanged: the DirtySpot stays
unclean, `running` stays true, and `get_clean_percentage` is never reached. -/
theorem one_by_one_step_raises (m : ℤ) (g : ℕ → ℕ) (s0 : CleaningRobots)
    (hinit : init 1 1 1 1 m g = .ok s0) (acts : List (ℕ × ℕ))
    (hperm : (acts.map Prod.fst).Perm [0, 1]) :
    getNeighborhood true 1 1 (0, 0) = [] ∧
    modelStep s0 acts = (s0, some .indexError) ∧
    s0.agents.get? 1 = some (.dirty ⟨1, (0, 0), false⟩) ∧
    s0.running = true ∧ all_cells_clean s0 = false := by
  have hs0 := init_ok_inv hinit
  have hagents : s0.agents = [.robot ⟨0, (0, 0), false, 0⟩, .dirty ⟨1, (0, 0), false⟩] := by
    rw [hs0]
    show mkRobots 1 ++ mkDirty 1 1 1 1 g = _
    have h1 : mkDirty 1 1 1 1 g = [.dirty ⟨1, (g 0 % 1, g 1 % 1), false⟩] := rfl
    rw [h1, Nat.mod_one, Nat.mod_one]
    rfl
  have hne : getNeighborhood true 1 1 (0, 0) = [] := rfl
  have hget0 : s0.agents.get? 0 = some (.robot ⟨0, (0, 0), false, 0⟩) := by
    rw [hagents]; rfl
  have hget1 : s0.agents.get? 1 = some (.dirty ⟨1, (0, 0), false⟩) := by
    rw [hagents]; rfl
  have hact0 : ∀ c, activateAgent true 1 1 c s0.agents 0 = .error .indexError :=
    fun c => activateAgent_at_idle_degenerate hget0 rfl hne
  have hact1 : ∀ c, activateAgent true 1 1 c s0.agents 1 = .ok s0.agents :=
    fun c => activateAgent_at_dirty hget1
  have hsched : schedStep true 1 1 s0.agents acts = (s0.agents, some .indexError) := by
    rcases acts with _ | ⟨⟨a1, c1⟩, acts2⟩
    · have hlen := hperm.length_eq
      simp at hlen
    rcases acts2 with _ | ⟨⟨a2, c2⟩, acts3⟩
    · have hlen := hperm.length_eq
      simp at hlen
    rcases acts3 with _ | ⟨x, xs⟩
    · rcases perm_pair_cases hperm with hl | hl
      · simp only [List.map_cons, List.map_nil, List.cons.injEq, and_true] at hl
        obtain ⟨rfl, rfl⟩ := hl
        rw [schedStep_cons, hact0 c1]
      · simp only [List.map_cons, List.map_nil, List.cons.injEq, and_true] at hl
        obtain ⟨rfl, rfl⟩ := hl
        rw [schedStep_cons, hact1 c1]
        show schedStep true 1 1 s0.agents [(0, c2)] = (s0.agents, some SimError.indexError)
        rw [schedStep_cons, hact0 c2]
    · have hlen := hperm.length_eq
      simp at hlen
  have htor : s0.torus = true := by rw [hs0]
  have hwid : s0.width = 1 := by rw [hs0]
  have hhei : s0.height = 1 := by rw [hs0]
  have hsched' : schedStep s0.torus s0.width s0.height s0.agents acts =
      (s0.agents, some SimError.indexError) := by
    rw [htor, hwid, hhei]
    exact hsched
  refine ⟨hne, ?_, hget1, by rw [hs0], ?_⟩
  · unfold modelStep
    rw [hsched']
  · unfold all_cells_clean
    rw [hagents]
    rfl

/-- Witness for the amended C6 with the opposite activation order. -/
theorem one_by_one_step_raises_witness :
    getNeighborhood true 1 1 (0, 0) = [] ∧
    modelStep exC6s0 [(1, 3), (0, 9)] = (exC6s0, some .indexError) ∧
    exC6s0.agents.get? 1 = some (.dirty ⟨1, (0, 0), false⟩) ∧
    exC6s0.running = true ∧ all_cells_clean exC6s0 = false :=
  one_by_one_step_raises 5 gZero exC6s0 rfl [(1, 3), (0, 9)] (by decide)

/-- C7: construction creates exactly `R` robots, all at `(0,0)`, and exactly
`C` dirty cells, the `k`-th at the independently drawn cell
`(g(2k) mod w, g(2k+1) mod h)`; the add-then-subtract of `R` cancels, so in
every subsequent state the `get_clean_percentage` denominator equals `C`
and, for `C > 0`, the percentage is `100 · clean / C`. -/
theorem init_population_spec (R C : ℕ) (w h : ℕ) (hw : 1 ≤ w) (hh : 1 ≤ h) (m : ℤ)
    (g : ℕ → ℕ) :
    ∃ s0, init (R : ℤ) (C : ℤ) w h m g = .ok s0 ∧
      (s0.agents.filter isRobotAgent).length = R ∧
      (∀ r : RobotAgent, Agent.robot r ∈ s0.agents → r.pos = (0, 0)) ∧
      (s0.agents.filter isDirtyAgent).length = C ∧
      (∀ k : ℕ, k < C → s0.agents.get? (R + k) =
        some (.dirty ⟨(R : ℤ) + (k : ℤ), (g (2 * k) % w, g (2 * k + 1) % h), false⟩)) ∧
      (∀ t, ReachesAny s0 t → t.num_agentsC - t.num_agentsR = (C : ℤ) ∧
        (0 < C → get_clean_percentage t =
          some (100 * (cleanCount t : ℚ) / (C : ℚ)))) := by
  refine ⟨_, init_ok_of_pos hw hh m g, ?_, ?_, ?_, ?_, ?_⟩
  · exact agents_filter_robot_length R ((R : ℕ) : ℤ) C w h g
  · intro r hr
    rw [List.mem_append] at hr
    rcases hr with hr | hr
    · rcases mkRobots_mem hr with ⟨i, _, heq⟩
      cases heq
      rfl
    · rcases mkDirty_mem hr with ⟨k, _, heq⟩
      cases heq
  · exact agents_filter_dirty_length R ((R : ℕ) : ℤ) C w h g
  · intro k hk
    exact agents_get?_dirty R ((R : ℕ) : ℤ) C w h g k hk
  · intro t hreach
    obtain ⟨_, _, _, hR, hC, _⟩ := reach_fields hreach
    have hR' : t.num_agentsR = (R : ℤ) := hR
    have hC' : t.num_agentsC = (C : ℤ) + (R : ℤ) := hC
    have htot : t.num_agentsC - t.num_agentsR = (C : ℤ) := by
      rw [hR', hC']
      ring
    refine ⟨htot, ?_⟩
    intro hCpos
    unfold get_clean_percentage
    dsimp only
    rw [htot, if_neg (Int.natCast_ne_zero.mpr (by omega))]
    refine congrArg some ?_
    push_cast
    ring

/-- Witness for C7 at a concrete configuration. -/
theorem init_population_spec_witness :
    ∃ s0, init ((1 : ℕ) : ℤ) ((1 : ℕ) : ℤ) 2 1 5 gZero = .ok s0 ∧
      (s0.agents.filter isRobotAgent).length = 1 ∧
      (∀ r : RobotAgent, Agent.robot r ∈ s0.agents → r.pos = (0, 0)) ∧
      (s0.agents.filter isDirtyAgent).length = 1 ∧
      (∀ k : ℕ, k < 1 → s0.agents.get? (1 + k) =
        some (.dirty ⟨((1 : ℕ) : ℤ) + (k : ℤ),
          (gZero (2 * k) % 2, gZero (2 * k + 1) % 1), false⟩)) ∧
      (∀ t, ReachesAny s0 t → t.num_agentsC - t.num_agentsR = ((1 : ℕ) : ℤ) ∧
        (0 < 1 → get_clean_percentage t =
          some (100 * (cleanCount t : ℚ) / ((1 : ℕ) : ℚ)))) :=
  init_population_spec 1 1 2 1 (by decide) (by decide) 5 gZero

/-- C9 counterexample: construction with a negative dirty-spot count
(`C = -1`) raises nothing — it returns a normally constructed model (the
code has no validation and defines no `InvalidConfigurationError`),
contradicting "raises InvalidConfigurationError at construction time". -/
theorem init_no_validation_cx :
    init 1 (-1) 2 2 5 gZero = .ok exC9s0 ∧ exC9s0.running = true :=
  ⟨rfl, rfl⟩

/-- C9 amended: `CleaningRobots.__init__` performs no validation: for any
integer `R` and `C` (negative included) on a grid with `w, h ≥ 1`,
construction succeeds and simply creates `max(R,0)` robots and `max(C,0)`
dirty cells (`range` over a non-positive count is empty); valid parameters
also raise no error.  No `InvalidConfigurationError` exists in the code. -/
theorem init_no_validation (R C : ℤ) (w h : ℕ) (hw : 1 ≤ w) (hh : 1 ≤ h) (m : ℤ)
    (g : ℕ → ℕ) :
    ∃ s0, init R C w h m g = .ok s0 ∧
      (s0.agents.filter isRobotAgent).length = R.toNat ∧
      (s0.agents.filter isDirtyAgent).length = C.toNat ∧
      s0.running = true := by
  refine ⟨_, init_ok_of_pos hw hh m g, ?_, ?_, rfl⟩
  · exact agents_filter_robot_length R.toNat R C.toNat w h g
  · exact agents_filter_dirty_length R.toNat R C.toNat w h g

/-- Witness for the amended C9 with negative counts. -/
theorem init_no_validation_witness :
    ∃ s0, init (-3) (-1) 1 1 7 gZero = .ok s0 ∧
      (s0.agents.filter isRobotAgent).length = (-3 : ℤ).toNat ∧
      (s0.agents.filter isDirtyAgent).length = (-1 : ℤ).toNat ∧
      s0.running = true :=
  init_no_validation (-3) (-1) 1 1 (by decide) (by decide) 7 gZero

/-- C10: the grid is always constructed as a torus (the literal `True` on
robot.py line 74); every wrapped Moore-neighbourhood coordinate of an
in-bounds position is in bounds, so a robot's move never targets an
out-of-bounds cell; and on any grid with more than one cell the
neighbourhood excluding the centre is non-empty. -/
theorem torus_wrap_safety (R C : ℤ) (w h : ℕ) (m : ℤ) (g : ℕ → ℕ)
    (s0 : CleaningRobots) (hinit : init R C w h m g = .ok s0)
    (pos : ℕ × ℕ) (hx : pos.1 < w) (hy : pos.2 < h) :
    s0.torus = true ∧
    (∀ q ∈ getNeighborhood true w h pos, q.1 < w ∧ q.2 < h) ∧
    (1 < w * h → getNeighborhood true w h pos ≠ []) ∧
    (∀ (c i : ℕ) (ags ags' : List Agent) (r r' : RobotAgent),
      ags.get? i = some (.robot r) → r.pos = pos →
      activateAgent true w h c ags i = .ok ags' →
      ags'.get? i = some (.robot r') → r'.pos.1 < w ∧ r'.pos.2 < h) := by
  have hw : 1 ≤ w := by omega
  have hh : 1 ≤ h := by omega
  refine ⟨by rw [init_ok_inv hinit], ?_, ?_, ?_⟩
  · intro q hq
    exact getNeighborhood_mem_bounds hw hh hq
  · intro hwh
    exact getNeighborhood_nonempty hx hy hwh
  · intro c i ags ags' r r' hi hrpos hok hr'
    have hilen : i < ags.length := (List.get?_eq_some.mp hi).1
    cases hv : r.vacuuming with
    | true =>
      rw [activateAgent_at_vacuuming hi hv] at hok
      cases hok
      rw [List.get?_set_eq_of_lt _ (by simpa using hilen)] at hr'
      have hr2 := Agent.robot.inj (Option.some.inj hr')
      subst hr2
      refine ⟨?_, ?_⟩ <;> dsimp only <;> rw [hrpos]
      · exact hx
      · exact hy
    | false =>
      by_cases hnil : getNeighborhood true w h r.pos = []
      · rw [activateAgent_at_idle_degenerate hi hv hnil] at hok
        cases hok
      · rw [activateAgent_at_idle hi hv hnil] at hok
        cases hok
        rw [List.get?_set_eq_of_lt _ (by simpa using hilen)] at hr'
        have hr2 := Agent.robot.inj (Option.some.inj hr')
        subst hr2
        have hp := getD_mem hnil c
        exact getNeighborhood_mem_bounds hw hh hp

/-- Witness for C10 at a concrete configuration and position. -/
theorem torus_wrap_safety_witness :
    exC10s0.torus = true ∧
    (∀ q ∈ getNeighborhood true 2 2 (0, 0), q.1 < 2 ∧ q.2 < 2) ∧
    (1 < 2 * 2 → getNeighborhood true 2 2 (0, 0) ≠ []) ∧
    (∀ (c i : ℕ) (ags ags' : List Agent) (r r' : RobotAgent),
      ags.get? i = some (.robot r) → r.pos = (0, 0) →
      activateAgent true 2 2 c ags i = .ok ags' →
      ags'.get? i = some (.robot r') → r'.pos.1 < 2 ∧ r'.pos.2 < 2) :=
  torus_wrap_safety 1 1 2 2 5 gZero exC10s0 rfl (0, 0) (by decide) (by decide)

end CleaningSim
